import Mathlib

/-!
Verification of the analytical pipeline of `stock_price_predictor.py`.

The pipeline works on pandas Series/DataFrames of IEEE-754 doubles.  We embed
the float values that actually occur as an extended-rational type `FVal`
(finite rational, +inf, -inf, or NaN) with the IEEE special-value rules for
the operations the source uses; the finite arithmetic itself is exact
rational arithmetic, which is faithful to every property claimed (the claims
are about definedness, signs, exact formulas and row counts, none of which
depend on rounding).

A price series is a length `n : Nat` together with `c : Nat → Rat` giving the
close of row `i` for `i < n` (pandas integer positions after
`preprocess_data` resets the index).
-/

set_option autoImplicit false

/-- IEEE-754-style extended value: NaN, +inf, -inf or a finite (rational)
number.  Models the float values flowing through the pandas pipeline. -/
inductive FVal where
  | nan : FVal
  | inf : FVal
  | ninf : FVal
  | val : ℚ → FVal
deriving DecidableEq

/-- True for every value a pandas `dropna` keeps: everything except NaN
(infinities are kept by `dropna`). -/
def FVal.defined : FVal → Bool
  | .nan => false
  | _ => true

/-- The comparison `x > 0` with IEEE semantics: NaN compares false. -/
def FVal.isPos : FVal → Bool
  | .val q => decide (0 < q)
  | .inf => true
  | _ => false

/-- The comparison `x < 0` with IEEE semantics: NaN compares false. -/
def FVal.isNeg : FVal → Bool
  | .val q => decide (q < 0)
  | .ninf => true
  | _ => false

/-- Extract the finite value, if any. -/
def FVal.toRat? : FVal → Option ℚ
  | .val q => some q
  | _ => none

/-- IEEE negation. -/
def FVal.fneg : FVal → FVal
  | .nan => .nan
  | .inf => .ninf
  | .ninf => .inf
  | .val q => .val (-q)

/-- IEEE addition (the cases that occur: NaN propagates, inf absorbs,
inf + (-inf) is NaN). -/
def FVal.fadd : FVal → FVal → FVal
  | .nan, _ => .nan
  | _, .nan => .nan
  | .inf, .ninf => .nan
  | .inf, _ => .inf
  | .ninf, .inf => .nan
  | .ninf, _ => .ninf
  | .val _, .inf => .inf
  | .val _, .ninf => .ninf
  | .val a, .val b => .val (a + b)

/-- IEEE subtraction, as `a + (-b)`. -/
def FVal.fsub (a b : FVal) : FVal := a.fadd b.fneg

/-- IEEE division.  The numerically relevant cases: NaN propagates,
`0/0 = NaN`, `a/0 = ±inf` for finite nonzero `a` (pandas/numpy produce a
signed infinity, not an exception), finite / ±inf = 0, ±inf / ±inf = NaN. -/
def FVal.fdiv : FVal → FVal → FVal
  | .nan, _ => .nan
  | _, .nan => .nan
  | .inf, .inf => .nan
  | .inf, .ninf => .nan
  | .ninf, .inf => .nan
  | .ninf, .ninf => .nan
  | .inf, .val b => if b < 0 then .ninf else .inf
  | .ninf, .val b => if b < 0 then .inf else .ninf
  | .val _, .inf => .val 0
  | .val _, .ninf => .val 0
  | .val a, .val b =>
      if b = 0 then (if a = 0 then .nan else if 0 < a then .inf else .ninf)
      else .val (a / b)

/-! ### calculate_rsi (source lines 81-97)

`diff = data.diff(1)` : first difference, NaN at row 0.
`gain = diff.where(diff > 0, 0)` / `loss = -diff.where(diff < 0, 0)` :
the `where` replaces every entry whose condition is false — including the
NaN at row 0, which compares false — by 0, so gain/loss are NaN-free.
`avg_gain/avg_loss = ·.rolling(window=14, min_periods=1).mean()` : mean of
the trailing window of up to 14 entries (at least one entry exists).
`rs = avg_gain / avg_loss`, `rsi = 100 - (100 / (1 + rs))`. -/

/-- `data.diff(1)` at row `i`: NaN at row 0, else `c i - c (i-1)`. -/
def diffF (c : ℕ → ℚ) (i : ℕ) : FVal :=
  if i = 0 then .nan else .val (c i - c (i - 1))

/-- `diff.where(diff > 0, 0)` at row `i`. -/
def gainF (c : ℕ → ℚ) (i : ℕ) : FVal :=
  if (diffF c i).isPos then diffF c i else .val 0

/-- `-diff.where(diff < 0, 0)` at row `i`. -/
def lossF (c : ℕ → ℚ) (i : ℕ) : FVal :=
  (if (diffF c i).isNeg then diffF c i else .val 0).fneg

/-- Integer positions of the trailing window of width `w` ending at row `i`:
`[i+1-w, ..., i]`, clamped at 0. -/
def winIdx (w i : ℕ) : List ℕ :=
  List.range' (i + 1 - w) (i + 1 - (i + 1 - w))

/-- `rolling(window=w, min_periods=1).mean()` at row `i`: the mean of the
non-NaN entries of the trailing window, NaN if there are none.  (Infinite
entries never occur in the series this is applied to: gain and loss are
NaN-free and finite.) -/
def rollMeanMin1 (f : ℕ → FVal) (w i : ℕ) : FVal :=
  if (((winIdx w i).map f).filterMap FVal.toRat?).length = 0 then .nan
  else .val ((((winIdx w i).map f).filterMap FVal.toRat?).sum /
    ((((winIdx w i).map f).filterMap FVal.toRat?).length : ℚ))

/-- `avg_gain` at row `i` (window 14, min_periods 1). -/
def avg_gain (c : ℕ → ℚ) (i : ℕ) : FVal := rollMeanMin1 (gainF c) 14 i

/-- `avg_loss` at row `i` (window 14, min_periods 1). -/
def avg_loss (c : ℕ → ℚ) (i : ℕ) : FVal := rollMeanMin1 (lossF c) 14 i

/-- `calculate_rsi` at row `i`: `100 - (100 / (1 + avg_gain / avg_loss))`
with IEEE semantics. -/
def calculate_rsi (c : ℕ → ℚ) (i : ℕ) : FVal :=
  (FVal.val 100).fsub ((FVal.val 100).fdiv ((FVal.val 1).fadd
    ((avg_gain c i).fdiv (avg_loss c i))))

/-! ### Rational-level description of gain/loss -/

/-- Rational value of the gain series: 0 at row 0 (the NaN difference is
replaced by 0 by `where`), else `max (c i - c (i-1)) 0`. -/
def gq (c : ℕ → ℚ) (i : ℕ) : ℚ :=
  if i = 0 then 0 else max (c i - c (i - 1)) 0

/-- Rational value of the loss series: 0 at row 0, else
`max (-(c i - c (i-1))) 0`. -/
def lq (c : ℕ → ℚ) (i : ℕ) : ℚ :=
  if i = 0 then 0 else max (-(c i - c (i - 1))) 0

/-- Rational value of `avg_gain`. -/
def gAvg (c : ℕ → ℚ) (i : ℕ) : ℚ :=
  ((winIdx 14 i).map (gq c)).sum / ((winIdx 14 i).length : ℚ)

/-- Rational value of `avg_loss`. -/
def lAvg (c : ℕ → ℚ) (i : ℕ) : ℚ :=
  ((winIdx 14 i).map (lq c)).sum / ((winIdx 14 i).length : ℚ)

/-! ### create_features (source lines 53-79)

Each derived column is modelled as a function from row position to `FVal`;
`dropna` keeps exactly the rows at which every column is non-NaN.  The input
columns Open/High/Low/Close/Volume and the Date column added by
`preprocess_data` are finite numbers (never NaN), so only the derived
columns below decide `dropna`. -/

/-- `Close.rolling(window=w).mean()` at row `i` (min_periods defaults to the
window size, so the first `w-1` rows are NaN).  Used for SMA_50, SMA_200 and
Rolling_Mean_Close (w = 10). -/
def sma (c : ℕ → ℚ) (w i : ℕ) : FVal :=
  if w ≤ i + 1 then .val (((winIdx w i).map c).sum / (w : ℚ)) else .nan

/-- `Close.ewm(span=span, adjust=False).mean()` at row `i`:
`e 0 = c 0`, `e (i+1) = a * c (i+1) + (1-a) * e i` with `a = 2/(span+1)`.
Never NaN. -/
def emaQ (span : ℕ) (c : ℕ → ℚ) : ℕ → ℚ
  | 0 => c 0
  | i + 1 => (2 / ((span : ℚ) + 1)) * c (i + 1) +
      (1 - 2 / ((span : ℚ) + 1)) * emaQ span c i

/-- The EMA column as a float column. -/
def emaF (span : ℕ) (c : ℕ → ℚ) (i : ℕ) : FVal := .val (emaQ span c i)

/-- `MACD = EMA_12 - EMA_26` at row `i`.  Never NaN. -/
def macdF (c : ℕ → ℚ) (i : ℕ) : FVal := .val (emaQ 12 c i - emaQ 26 c i)

/-- `Close.pct_change()` at row `i`: NaN at row 0, else
`(c i - c (i-1)) / c (i-1)` with IEEE division (a zero previous close gives
a signed infinity when the change is nonzero, NaN when it is zero too). -/
def daily_return (c : ℕ → ℚ) (i : ℕ) : FVal :=
  if i = 0 then .nan else (FVal.val (c i - c (i - 1))).fdiv (.val (c (i - 1)))

/-- `Close.shift(k)` at row `i`: NaN for the first `k` rows. -/
def closeLag (c : ℕ → ℚ) (k i : ℕ) : FVal :=
  if k ≤ i then .val (c (i - k)) else .nan

/-- `Daily_Return.shift(k)` at row `i`. -/
def drLag (c : ℕ → ℚ) (k i : ℕ) : FVal :=
  if k ≤ i then daily_return c (i - k) else .nan

/-- The sample variance (ddof = 1) of the trailing 10-row window. -/
def rollVarTen (c : ℕ → ℚ) (i : ℕ) : ℚ :=
  ((winIdx 10 i).map
    (fun k => (c k - ((winIdx 10 i).map c).sum / 10) ^ 2)).sum / 9

/-- `Close.rolling(window=10).std()` at row `i`: NaN for the first 9 rows.
The source's value is the square root of `rollVarTen`; since the variance is
non-negative the square root is always defined, so the definedness of this
column — the only property `dropna` and the claims consult — is captured
exactly by carrying the variance instead of its square root. -/
def rollStdTen (c : ℕ → ℚ) (i : ℕ) : FVal :=
  if 10 ≤ i + 1 then .val (rollVarTen c i) else .nan

/-- `Future_Close = Close.shift(-1)` at row `i` of an `n`-row frame: NaN at
the last row, else the next row's close. -/
def futureClose (n : ℕ) (c : ℕ → ℚ) (i : ℕ) : FVal :=
  if i + 1 < n then .val (c (i + 1)) else .nan

/-- Whether row `i` survives `stock_data.dropna()` at the end of
`create_features`: every derived column must be non-NaN (the untouched
input columns are finite and never NaN). -/
def keptRow (n : ℕ) (c : ℕ → ℚ) (i : ℕ) : Bool :=
  (sma c 50 i).defined && (sma c 200 i).defined &&
  (emaF 12 c i).defined && (emaF 26 c i).defined && (macdF c i).defined &&
  (calculate_rsi c i).defined && (daily_return c i).defined &&
  (closeLag c 1 i).defined && (drLag c 1 i).defined &&
  (closeLag c 2 i).defined && (drLag c 2 i).defined &&
  (closeLag c 3 i).defined && (drLag c 3 i).defined &&
  (closeLag c 4 i).defined && (drLag c 4 i).defined &&
  (closeLag c 5 i).defined && (drLag c 5 i).defined &&
  (sma c 10 i).defined && (rollStdTen c i).defined &&
  (futureClose n c i).defined

/-- The feature table produced by `create_features` on an `n`-row close
series, represented by the list of surviving input row positions (the
columns of the table are the column functions above, read at these
positions). -/
def create_features (n : ℕ) (c : ℕ → ℚ) : List ℕ :=
  (List.range n).filter (keptRow n c)

/-! ### The stage wrappers and their all-or-nothing behaviour
(source lines 43-51, 53-79, 99-142, 144-153)

Each pipeline stage is a `try`-block that returns `None` on failure.  The
stages mutate their input DataFrame in place, so the all-or-nothing claim
hinges on where a stage can raise:

* `preprocess_data` can only fail at `stock_data["Date"] = stock_data.index`
  when the input is not a proper frame (e.g. has no index); this is its
  first statement, before any mutation.
* `create_features` reads only the `Close` column of its input; the first
  statement `stock_data["SMA_50"] = stock_data["Close"].rolling(...)`
  evaluates its right-hand side — the only raising point (missing or
  non-numeric `Close`) — before the first column assignment, and all later
  statements are total on numeric data (`calculate_rsi` catches its own
  errors and cannot raise on a numeric series).
* `train_model` and `predict_future_prices` never mutate caller state.

A frame is modelled with its possibly-missing pieces as `Option` fields. -/

structure PyFrame where
  rows : ℕ
  /-- The date index; `none` models a malformed input to `preprocess_data`. -/
  index? : Option (ℕ → ℚ)
  /-- The Close column; `none` models a frame on which the first statement of
  `create_features` raises (missing or non-numeric column). -/
  close? : Option (ℕ → ℚ)
  openC : ℕ → ℚ
  highC : ℕ → ℚ
  lowC : ℕ → ℚ
  volC : ℕ → ℚ
  /-- The Date column added by `preprocess_data`. -/
  dateC? : Option (ℕ → ℚ)
  /-- Whether the feature columns of `create_features` have been added. -/
  featsAdded : Bool

/-- `preprocess_data` (lines 43-51): copies the index into a `Date` column
and resets the index; returns the result, or `None` if the input is
malformed.  The second component is the caller-visible state of the input
frame after the call (the function mutates in place on success; on failure
it raises before the first mutation). -/
def preprocess_data (f : PyFrame) : Option PyFrame × PyFrame :=
  match f.index? with
  | none => (none, f)
  | some ix =>
      let g := { f with dateC? := some ix }
      (some g, g)

/-- `create_features` as a pipeline stage (lines 53-79): returns the feature
table, or `None` when the `Close` access raises.  The second component is
the caller-visible state of the input frame after the call. -/
def create_features_st (f : PyFrame) : Option (List ℕ) × PyFrame :=
  match f.close? with
  | none => (none, f)
  | some c => (some (create_features f.rows c), { f with featsAdded := true })

/-! ### train_model (source lines 99-142)

`train_test_split(..., test_size=0.2, random_state=42)` draws a fixed
pseudo-random permutation of the row positions and takes the first
`ceil(0.2 * n)` permuted rows as the test set and the rest as the training
set.  The seeded Mersenne-Twister permutation itself is not representable;
it is passed in as an explicit permutation parameter `perm`, and every
theorem below holds for all of them.  Likewise the Keras network fit — a
floating-point, nondeterministically initialised optimisation — enters as
an abstract fitting function `fitNN`. -/

/-- Number of test samples: `ceil(0.2 * n)`. -/
def testCount (n : ℕ) : ℕ := (n + 4) / 5

/-- Reorder a list by a list of positions (a permutation of `range n` for
the real shuffle). -/
def permute {α : Type} (perm : List ℕ) (xs : List α) : List α :=
  perm.filterMap xs.get?

/-- The training split: everything after the first `testCount` permuted
rows. -/
def trainSplit {α : Type} (perm : List ℕ) (xs : List α) : List α :=
  (permute perm xs).drop (testCount xs.length)

/-- The test split: the first `testCount` permuted rows. -/
def testSplit {α : Type} (perm : List ℕ) (xs : List α) : List α :=
  (permute perm xs).take (testCount xs.length)

/-- Mean of a rational column. -/
def meanQ (l : List ℚ) : ℚ := l.sum / (l.length : ℚ)

/-- Population variance (ddof = 0, as `StandardScaler` uses) of a rational
column. -/
def popVar (l : List ℚ) : ℚ :=
  (l.map (fun x => (x - meanQ l) ^ 2)).sum / (l.length : ℚ)

/-- The fitted `StandardScaler`: per-feature mean and squared scale.  As in
sklearn, a zero-variance feature gets scale 1 (so the squared scale is 1
when the variance is 0, else the variance; the scale itself is its square
root). -/
structure StdScaler where
  meanv : Fin 8 → ℚ
  scaleSq : Fin 8 → ℚ

/-- Column `j` of a feature matrix. -/
def colVals (xs : List (Fin 8 → ℚ)) (j : Fin 8) : List ℚ :=
  xs.map (fun r => r j)

/-- `StandardScaler().fit(X)`. -/
def fitScaler (xs : List (Fin 8 → ℚ)) : StdScaler :=
  ⟨fun j => meanQ (colVals xs j),
   fun j => if popVar (colVals xs j) = 0 then 1 else popVar (colVals xs j)⟩

/-- `scaler.transform` on one row: `(x - mean) / sqrt(scaleSq)`
per feature. -/
noncomputable def transformRow (s : StdScaler) (r : Fin 8 → ℚ) :
    Fin 8 → ℝ :=
  fun j => ((r j : ℝ) - (s.meanv j : ℝ)) / Real.sqrt ((s.scaleSq j : ℝ))

/-- `train_model` (lines 99-142): with fewer than 2 samples it logs and
returns `(None, None)`; otherwise it splits, fits the scaler on the
training split, scales, fits the network and returns the pair
`(model, scaler)`. -/
noncomputable def train_model {M : Type}
    (fitNN : List (Fin 8 → ℝ) → List ℚ → M) (perm : List ℕ)
    (X : List (Fin 8 → ℚ)) (y : List ℚ) : Option M × Option StdScaler :=
  if X.length < 2 then (none, none)
  else
    let sc := fitScaler (trainSplit perm X)
    (some (fitNN ((trainSplit perm X).map (transformRow sc))
      (trainSplit perm y)), some sc)

/-- `X_test_scaled = scaler.transform(X_test)` (line 117): the test split
scaled with the statistics fitted on the training split. -/
noncomputable def testScaled (perm : List ℕ) (X : List (Fin 8 → ℚ)) :
    List (Fin 8 → ℝ) :=
  (testSplit perm X).map (transformRow (fitScaler (trainSplit perm X)))

/-- Column `j` of the scaled training data. -/
noncomputable def scaledTrainCol (perm : List ℕ) (X : List (Fin 8 → ℚ))
    (j : Fin 8) : List ℝ :=
  (trainSplit perm X).map
    (fun r => transformRow (fitScaler (trainSplit perm X)) r j)

/-- Mean of a real column. -/
noncomputable def meanR (l : List ℝ) : ℝ := l.sum / (l.length : ℝ)

/-- Population variance of a real column. -/
noncomputable def popVarR (l : List ℝ) : ℝ :=
  (l.map (fun x => (x - meanR l) ^ 2)).sum / (l.length : ℝ)

/-- `predict_future_prices` (lines 144-153): scales one feature row and runs
the model's forward computation `fw`; a schema mismatch (wrong number of
features) makes `scaler.transform` raise, caught and turned into `None`. -/
noncomputable def predict_future_prices {M : Type}
    (fw : M → (Fin 8 → ℝ) → ℝ) (m : M) (sc : StdScaler) (row : List ℚ) :
    Option ℝ :=
  if h : row.length = 8 then
    some (fw m (transformRow sc (fun j => row.get (Fin.cast h.symm j))))
  else none

/-! ### The orchestration loop (source lines 155-271) -/

/-- The ANSI color code printed for an upward forecast. -/
def GREEN : String := "\x1b[92m"

/-- The ANSI color code printed for a downward forecast. -/
def RED : String := "\x1b[91m"

/-- The forecast report of `main` (lines 239-261): the percentage change
`(future - last) / last * 100` is computed first; the forecast is printed
green with direction "up" when `future_price > last_close` and red with
direction "down" otherwise, in both cases showing the absolute value of the
percentage change.  Returns (direction, color, printed percentage). -/
def report (future last : ℚ) : String × String × ℚ :=
  if last < future then ("up", GREEN, |(future - last) / last * 100|)
  else ("down", RED, |(future - last) / last * 100|)

/-! ### Date resolution in main (source lines 164-173)

`if "+" in end_date: end_date = (strptime(start_date, "%Y-%m-%d") +
timedelta(days=int(end_date[1:]))).strftime("%Y-%m-%d")`.

Dates are proleptic-Gregorian `(year, month, day)` triples; `strptime`
validates the calendar date (and the format: 4-digit year, 1-2 digit month
and day) and raises on anything else, which the top-level handler of `main`
turns into a retry prompt — modelled as `none`.  Adding a
`timedelta(days=nd)` advances the date by exactly `nd` calendar days;
`datetime` raises an overflow error past year 9999.  Strings are modelled
as lists of characters. -/

structure SDate where
  year : ℕ
  month : ℕ
  day : ℕ
deriving DecidableEq

/-- Gregorian leap-year rule. -/
def isLeap (y : ℕ) : Bool :=
  y % 4 = 0 && (y % 100 ≠ 0 || y % 400 = 0)

/-- Length of month `m` of year `y`. -/
def daysInMonth (y m : ℕ) : ℕ :=
  if m = 2 then (if isLeap y then 29 else 28)
  else if m = 4 ∨ m = 6 ∨ m = 9 ∨ m = 11 then 30
  else 31

/-- A valid calendar date (the range `datetime` accepts, year 1 up). -/
def validDate (x : SDate) : Prop :=
  1 ≤ x.year ∧ 1 ≤ x.month ∧ x.month ≤ 12 ∧ 1 ≤ x.day ∧
    x.day ≤ daysInMonth x.year x.month

instance (x : SDate) : Decidable (validDate x) := by
  unfold validDate
  infer_instance

/-- The calendar successor of a date. -/
def nextDay (x : SDate) : SDate :=
  if x.day < daysInMonth x.year x.month then ⟨x.year, x.month, x.day + 1⟩
  else if x.month < 12 then ⟨x.year, x.month + 1, 1⟩
  else ⟨x.year + 1, 1, 1⟩

/-- `date + timedelta(days = nd)`: `nd` calendar-day successions. -/
def addDays (nd : ℕ) (x : SDate) : SDate := nextDay^[nd] x

/-- Days of year `y` before the first of month `m` (for valid months). -/
def daysBeforeMonth (y m : ℕ) : ℕ :=
  (if m ≤ 1 then 0 else if m = 2 then 31 else if m = 3 then 59
   else if m = 4 then 90 else if m = 5 then 120 else if m = 6 then 151
   else if m = 7 then 181 else if m = 8 then 212 else if m = 9 then 243
   else if m = 10 then 273 else if m = 11 then 304 else 334) +
  (if isLeap y ∧ 3 ≤ m then 1 else 0)

/-- Number of leap years in `1..y`. -/
def leapCount (y : ℕ) : ℕ := y / 4 + y / 400 - y / 100

/-- The proleptic-Gregorian ordinal of a date (day 1 = January 1 of year 1),
as `datetime.date.toordinal` computes it.  This is the independent yardstick
against which `addDays`' successor iteration is measured. -/
def toOrdinal (x : SDate) : ℕ :=
  365 * (x.year - 1) + leapCount (x.year - 1) +
    daysBeforeMonth x.year x.month + x.day

/-- Parse a decimal numeral (the digit strings `int(...)` and `strptime`
accept in the claim's scope). -/
def decDigits? (l : List Char) : Option ℕ :=
  if l ≠ [] ∧ l.all Char.isDigit then
    some (l.foldl (fun a ch => 10 * a + (ch.toNat - 48)) 0)
  else none

/-- `strptime(s, "%Y-%m-%d")`: three dash-separated fields, a 4-digit year
and 1-2 digit month and day, validated as a calendar date. -/
def parseDate (s : List Char) : Option SDate :=
  match s.splitOn '-' with
  | [ys, ms, ds] =>
      if ys.length = 4 ∧ 1 ≤ ms.length ∧ ms.length ≤ 2 ∧
          1 ≤ ds.length ∧ ds.length ≤ 2 then
        match decDigits? ys, decDigits? ms, decDigits? ds with
        | some y, some m, some d =>
            if validDate ⟨y, m, d⟩ then some ⟨y, m, d⟩ else none
        | _, _, _ => none
      else none
  | _ => none

/-- Decimal digits of `n`, most significant first. -/
def natChars (n : ℕ) : List Char := Nat.toDigits 10 n

/-- Zero-pad to width `w`. -/
def padNum (w n : ℕ) : List Char :=
  List.replicate (w - (natChars n).length) '0' ++ natChars n

/-- `strftime("%Y-%m-%d")`. -/
def formatDate (x : SDate) : List Char :=
  padNum 4 x.year ++ ['-'] ++ padNum 2 x.month ++ ['-'] ++ padNum 2 x.day

/-- The end-date resolution of `main` (lines 164-173): when the end-date
input contains `+`, parse the rest as a day count, parse the start date,
add the days and format the result; any parse or overflow error propagates
to the retry prompt (`none`).  Otherwise the input is used as given. -/
def resolveEndDate (start endd : List Char) : Option (List Char) :=
  if endd.contains '+' then
    match decDigits? (endd.drop 1), parseDate start with
    | some nd, some x =>
        if (addDays nd x).year ≤ 9999 then some (formatDate (addDays nd x))
        else none
    | _, _ => none
  else some endd

/-- A malformed frame (no usable index, no Close column) on which both
`preprocess_data` and `create_features` fail at their first statement. -/
def badFrame : PyFrame :=
  ⟨0, none, none, fun _ => 0, fun _ => 0, fun _ => 0, fun _ => 0, none, false⟩

theorem fadd_val_val (a b : ℚ) : (FVal.val a).fadd (.val b) = .val (a + b) := rfl

theorem fadd_val_inf (a : ℚ) : (FVal.val a).fadd .inf = .inf := rfl

theorem fadd_val_nan (a : ℚ) : (FVal.val a).fadd .nan = .nan := rfl

theorem fsub_val_val (a b : ℚ) : (FVal.val a).fsub (.val b) = .val (a - b) := by
  show FVal.val (a + -b) = _
  rw [sub_eq_add_neg]

theorem fsub_val_nan (a : ℚ) : (FVal.val a).fsub .nan = .nan := rfl

theorem fdiv_val_val (a b : ℚ) (hb : b ≠ 0) :
    (FVal.val a).fdiv (.val b) = .val (a / b) := by
  show (if b = 0 then if a = 0 then FVal.nan else if 0 < a then FVal.inf
    else FVal.ninf else FVal.val (a / b)) = FVal.val (a / b)
  rw [if_neg hb]

theorem fdiv_val_zero_pos (a : ℚ) (ha : 0 < a) :
    (FVal.val a).fdiv (.val 0) = .inf := by
  show (if (0 : ℚ) = 0 then if a = 0 then FVal.nan else if 0 < a then FVal.inf
    else FVal.ninf else FVal.val (a / 0)) = FVal.inf
  rw [if_pos rfl, if_neg (ne_of_gt ha), if_pos ha]

theorem fdiv_zero_zero : (FVal.val 0).fdiv (.val 0) = .nan := rfl

theorem fdiv_val_inf (a : ℚ) : (FVal.val a).fdiv .inf = .val 0 := rfl

theorem fdiv_val_nan (a : ℚ) : (FVal.val a).fdiv .nan = .nan := rfl

theorem gainF_eq (c : ℕ → ℚ) (i : ℕ) : gainF c i = .val (gq c i) := by
  unfold gainF gq diffF
  rcases i with _ | j
  · simp [FVal.isPos]
  · simp only [Nat.succ_ne_zero, if_false, FVal.isPos, Nat.add_sub_cancel,
      decide_eq_true_eq]
    by_cases h : 0 < c (j + 1) - c j
    · rw [if_pos h, max_eq_left h.le]
    · rw [if_neg h, max_eq_right (le_of_not_lt h)]

theorem lossF_eq (c : ℕ → ℚ) (i : ℕ) : lossF c i = .val (lq c i) := by
  unfold lossF lq diffF
  rcases i with _ | j
  · simp [FVal.isNeg, FVal.fneg]
  · simp only [Nat.succ_ne_zero, if_false, FVal.isNeg, Nat.add_sub_cancel,
      decide_eq_true_eq]
    by_cases h : c (j + 1) - c j < 0
    · rw [if_pos h]
      show FVal.val (-(c (j + 1) - c j)) = _
      rw [max_eq_left (by linarith)]
    · rw [if_neg h]
      show FVal.val (-0) = _
      rw [neg_zero, max_eq_right (by linarith [le_of_not_lt h])]

theorem winIdx_length_pos (w i : ℕ) (hw : 1 ≤ w) : 0 < (winIdx w i).length := by
  simp only [winIdx, List.length_range']
  omega

theorem winIdx_mem (w i k : ℕ) : k ∈ winIdx w i ↔ i + 1 - w ≤ k ∧ k ≤ i := by
  simp only [winIdx, List.mem_range'_1]
  omega

theorem rollMeanMin1_val (f : ℕ → FVal) (g : ℕ → ℚ) (w i : ℕ) (hw : 1 ≤ w)
    (h : ∀ k, f k = .val (g k)) :
    rollMeanMin1 f w i =
      .val (((winIdx w i).map g).sum / ((winIdx w i).length : ℚ)) := by
  unfold rollMeanMin1
  have hmap : (winIdx w i).map f = (winIdx w i).map (fun k => FVal.val (g k)) := by
    apply List.map_congr_left
    intro k _
    exact h k
  have hcomp : (FVal.toRat? ∘ fun k => FVal.val (g k)) = some ∘ g := rfl
  rw [hmap, List.filterMap_map, hcomp, List.filterMap_eq_map]
  have hlen := winIdx_length_pos w i hw
  simp only [List.length_map]
  rw [if_neg (by omega)]

theorem avg_gain_eq (c : ℕ → ℚ) (i : ℕ) : avg_gain c i = .val (gAvg c i) := by
  unfold avg_gain gAvg
  exact rollMeanMin1_val _ _ 14 i (by omega) (gainF_eq c)

theorem avg_loss_eq (c : ℕ → ℚ) (i : ℕ) : avg_loss c i = .val (lAvg c i) := by
  unfold avg_loss lAvg
  exact rollMeanMin1_val _ _ 14 i (by omega) (lossF_eq c)

theorem gq_nonneg (c : ℕ → ℚ) (i : ℕ) : 0 ≤ gq c i := by
  unfold gq
  split
  · exact le_refl 0
  · exact le_max_right _ _

theorem lq_nonneg (c : ℕ → ℚ) (i : ℕ) : 0 ≤ lq c i := by
  unfold lq
  split
  · exact le_refl 0
  · exact le_max_right _ _

theorem gAvg_nonneg (c : ℕ → ℚ) (i : ℕ) : 0 ≤ gAvg c i := by
  unfold gAvg
  apply div_nonneg
  · exact List.sum_nonneg (by
      intro x hx
      obtain ⟨k, _, rfl⟩ := List.mem_map.mp hx
      exact gq_nonneg c k)
  · positivity

theorem lAvg_nonneg (c : ℕ → ℚ) (i : ℕ) : 0 ≤ lAvg c i := by
  unfold lAvg
  apply div_nonneg
  · exact List.sum_nonneg (by
      intro x hx
      obtain ⟨k, _, rfl⟩ := List.mem_map.mp hx
      exact lq_nonneg c k)
  · positivity

/-- Closed form of `calculate_rsi` through the IEEE special cases: with
`g = gAvg`, `l = lAvg` (both nonnegative), the result is NaN when both
averages are zero (rs = 0/0), exactly 100 when only the loss average is zero
(rs = +inf), and `100 - 100/(1 + g/l)` otherwise. -/
theorem calculate_rsi_eq (c : ℕ → ℚ) (i : ℕ) :
    calculate_rsi c i =
      if lAvg c i = 0 then
        (if gAvg c i = 0 then .nan else .val 100)
      else .val (100 - 100 / (1 + gAvg c i / lAvg c i)) := by
  have hg := gAvg_nonneg c i
  have hl := lAvg_nonneg c i
  unfold calculate_rsi
  rw [avg_gain_eq, avg_loss_eq]
  by_cases h1 : lAvg c i = 0
  · by_cases h2 : gAvg c i = 0
    · rw [h1, h2, if_pos rfl, if_pos rfl, fdiv_zero_zero, fadd_val_nan,
        fdiv_val_nan, fsub_val_nan]
    · have hgpos : 0 < gAvg c i := lt_of_le_of_ne hg (Ne.symm h2)
      rw [h1, if_pos rfl, if_neg h2, fdiv_val_zero_pos _ hgpos, fadd_val_inf,
        fdiv_val_inf, fsub_val_val]
      norm_num
  · have hlpos : 0 < lAvg c i := lt_of_le_of_ne hl (Ne.symm h1)
    have hrs : 0 ≤ gAvg c i / lAvg c i := div_nonneg hg hl
    have hden : (1 : ℚ) + gAvg c i / lAvg c i ≠ 0 := by positivity
    rw [if_neg h1, fdiv_val_val _ _ h1, fadd_val_val, fdiv_val_val _ _ hden,
      fsub_val_val]

theorem sum_map_eq_zero {l : List ℕ} {f : ℕ → ℚ} (h : ∀ k ∈ l, f k = 0) :
    (l.map f).sum = 0 := by
  apply List.sum_eq_zero
  intro x hx
  obtain ⟨k, hk, rfl⟩ := List.mem_map.mp hx
  exact h k hk

theorem sum_map_nonneg {l : List ℕ} {f : ℕ → ℚ} (h : ∀ k ∈ l, 0 ≤ f k) :
    0 ≤ (l.map f).sum := by
  apply List.sum_nonneg
  intro x hx
  obtain ⟨k, hk, rfl⟩ := List.mem_map.mp hx
  exact h k hk

theorem sum_map_pos {l : List ℕ} {f : ℕ → ℚ} (k : ℕ) (hk : k ∈ l)
    (hkpos : 0 < f k) (hnn : ∀ j ∈ l, 0 ≤ f j) : 0 < (l.map f).sum := by
  obtain ⟨s, t, rfl⟩ := List.append_of_mem hk
  rw [List.map_append, List.sum_append, List.map_cons, List.sum_cons]
  have hs : 0 ≤ (s.map f).sum :=
    sum_map_nonneg (fun j hj => hnn j (List.mem_append_left _ hj))
  have ht : 0 ≤ (t.map f).sum :=
    sum_map_nonneg (fun j hj =>
      hnn j (List.mem_append_right _ (List.mem_cons_of_mem _ hj)))
  linarith

/-- On a series whose consecutive closes strictly rise below row bound `n`,
the trailing loss average is zero at every row `i < n`. -/
theorem lAvg_eq_zero_of_increasing (n : ℕ) (c : ℕ → ℚ)
    (hc : ∀ k, k + 1 < n → c k < c (k + 1)) (i : ℕ) (hi : i < n) :
    lAvg c i = 0 := by
  unfold lAvg
  have hz : ((winIdx 14 i).map (lq c)).sum = 0 := by
    apply sum_map_eq_zero
    intro k hk
    rcases Nat.eq_zero_or_pos k with rfl | hkpos
    · simp [lq]
    · have hki : k ≤ i := ((winIdx_mem 14 i k).mp hk).2
      have hlt : c (k - 1) < c k := by
        have h := hc (k - 1) (by omega)
        rwa [show k - 1 + 1 = k by omega] at h
      unfold lq
      rw [if_neg (by omega)]
      apply max_eq_right
      linarith
  rw [hz, zero_div]

theorem gAvg_eq_zero_of_decreasing (n : ℕ) (c : ℕ → ℚ)
    (hc : ∀ k, k + 1 < n → c (k + 1) < c k) (i : ℕ) (hi : i < n) :
    gAvg c i = 0 := by
  unfold gAvg
  have hz : ((winIdx 14 i).map (gq c)).sum = 0 := by
    apply sum_map_eq_zero
    intro k hk
    rcases Nat.eq_zero_or_pos k with rfl | hkpos
    · simp [gq]
    · have hki : k ≤ i := ((winIdx_mem 14 i k).mp hk).2
      have hlt : c k < c (k - 1) := by
        have h := hc (k - 1) (by omega)
        rwa [show k - 1 + 1 = k by omega] at h
      unfold gq
      rw [if_neg (by omega)]
      apply max_eq_right
      linarith
  rw [hz, zero_div]

theorem gAvg_pos_of_increasing (n : ℕ) (c : ℕ → ℚ)
    (hc : ∀ k, k + 1 < n → c k < c (k + 1)) (i : ℕ) (hi1 : 1 ≤ i)
    (hi : i < n) : 0 < gAvg c i := by
  unfold gAvg
  apply div_pos
  · apply sum_map_pos i ((winIdx_mem 14 i i).mpr ⟨by omega, le_refl i⟩)
    · have hlt : c (i - 1) < c i := by
        have h := hc (i - 1) (by omega)
        rwa [show i - 1 + 1 = i by omega] at h
      unfold gq
      rw [if_neg (by omega), max_eq_left (by linarith)]
      linarith
    · exact fun j _ => gq_nonneg c j
  · exact_mod_cast winIdx_length_pos 14 i (by omega)

theorem lAvg_pos_of_decreasing (n : ℕ) (c : ℕ → ℚ)
    (hc : ∀ k, k + 1 < n → c (k + 1) < c k) (i : ℕ) (hi1 : 1 ≤ i)
    (hi : i < n) : 0 < lAvg c i := by
  unfold lAvg
  apply div_pos
  · apply sum_map_pos i ((winIdx_mem 14 i i).mpr ⟨by omega, le_refl i⟩)
    · have hlt : c i < c (i - 1) := by
        have h := hc (i - 1) (by omega)
        rwa [show i - 1 + 1 = i by omega] at h
      unfold lq
      rw [if_neg (by omega), max_eq_left (by linarith)]
      linarith
    · exact fun j _ => lq_nonneg c j
  · exact_mod_cast winIdx_length_pos 14 i (by omega)

/-- C3: on a strictly monotonically increasing price series the RSI of
`calculate_rsi` equals 100 at every row past the first (the all-gain window
drives `rs` to +infinity and `100 - 100/(1+rs)` to exactly 100), and on a
strictly monotonically decreasing series it equals 0 at every row past the
first (`rs = 0`). -/
theorem calculate_rsi_monotone (n : ℕ) (c d : ℕ → ℚ)
    (hc : ∀ k, k + 1 < n → c k < c (k + 1))
    (hd : ∀ k, k + 1 < n → d (k + 1) < d k) :
    (∀ i, 1 ≤ i → i < n → calculate_rsi c i = .val 100) ∧
    (∀ i, 1 ≤ i → i < n → calculate_rsi d i = .val 0) := by
  constructor
  · intro i hi1 hi
    have hl0 := lAvg_eq_zero_of_increasing n c hc i hi
    have hg := gAvg_pos_of_increasing n c hc i hi1 hi
    rw [calculate_rsi_eq, if_pos hl0, if_neg (ne_of_gt hg)]
  · intro i hi1 hi
    have hg0 := gAvg_eq_zero_of_decreasing n d hd i hi
    have hl := lAvg_pos_of_decreasing n d hd i hi1 hi
    rw [calculate_rsi_eq, if_neg (ne_of_gt hl), hg0, zero_div]
    norm_num

/-- Witness for C3 at the concrete 2-row series with closes 0,1 (rising) and
0,-1 (falling): the RSI at row 1 is exactly 100, resp. 0. -/
theorem calculate_rsi_monotone_witness :
    calculate_rsi (fun k => (k : ℚ)) 1 = .val 100 ∧
    calculate_rsi (fun k => -(k : ℚ)) 1 = .val 0 :=
  ⟨(calculate_rsi_monotone 2 (fun k => (k : ℚ)) (fun k => -(k : ℚ))
      (fun k hk => by
        have hk0 : k = 0 := by omega
        subst hk0
        norm_num)
      (fun k hk => by
        have hk0 : k = 0 := by omega
        subst hk0
        norm_num)).1 1 (le_refl 1) (by omega),
   (calculate_rsi_monotone 2 (fun k => (k : ℚ)) (fun k => -(k : ℚ))
      (fun k hk => by
        have hk0 : k = 0 := by omega
        subst hk0
        norm_num)
      (fun k hk => by
        have hk0 : k = 0 := by omega
        subst hk0
        norm_num)).2 1 (le_refl 1) (by omega)⟩

/-- C10: wherever `calculate_rsi` is not NaN its value is a finite number in
the closed interval [0, 100] (the trailing gain and loss averages are
non-negative). -/
theorem calculate_rsi_range (c : ℕ → ℚ) (i : ℕ)
    (h : calculate_rsi c i ≠ .nan) :
    ∃ q : ℚ, calculate_rsi c i = .val q ∧ 0 ≤ q ∧ q ≤ 100 := by
  rw [calculate_rsi_eq] at h ⊢
  by_cases h1 : lAvg c i = 0
  · by_cases h2 : gAvg c i = 0
    · rw [if_pos h1, if_pos h2] at h
      exact absurd rfl h
    · rw [if_pos h1, if_neg h2]
      exact ⟨100, rfl, by norm_num, by norm_num⟩
  · rw [if_neg h1]
    have hl : 0 < lAvg c i := lt_of_le_of_ne (lAvg_nonneg c i) (Ne.symm h1)
    have hg := gAvg_nonneg c i
    have hrs : 0 ≤ gAvg c i / lAvg c i := div_nonneg hg hl.le
    refine ⟨_, rfl, ?_, ?_⟩
    · have hle : 100 / (1 + gAvg c i / lAvg c i) ≤ 100 := by
        apply div_le_self (by norm_num)
        linarith
      linarith
    · have hpos : 0 < 100 / (1 + gAvg c i / lAvg c i) := by positivity
      linarith

/-- The natural-number close series 0,1,2,... is strictly increasing. -/
theorem castSeries_mono (n : ℕ) :
    ∀ k : ℕ, k + 1 < n → ((k : ℚ)) < (((k + 1 : ℕ) : ℚ)) := by
  intro k _
  exact_mod_cast Nat.lt_succ_self k

/-- On the close series 0,1,2,... the RSI at row 1 is exactly 100. -/
theorem rsi_cast_one : calculate_rsi (fun k => (k : ℚ)) 1 = .val 100 := by
  have hl0 := lAvg_eq_zero_of_increasing 2 (fun k => (k : ℚ))
    (castSeries_mono 2) 1 (by omega)
  have hg := gAvg_pos_of_increasing 2 (fun k => (k : ℚ))
    (castSeries_mono 2) 1 (le_refl 1) (by omega)
  rw [calculate_rsi_eq, if_pos hl0, if_neg (ne_of_gt hg)]

/-- On the close series 0,1,2,... the loss average at row 1 is zero. -/
theorem avg_loss_cast_one : avg_loss (fun k => (k : ℚ)) 1 = .val 0 := by
  rw [avg_loss_eq,
    lAvg_eq_zero_of_increasing 2 (fun k => (k : ℚ)) (castSeries_mono 2) 1
      (by omega)]

/-- Witness for C10 at the rising 2-row series: the RSI at row 1 is defined
and the bound applies. -/
theorem calculate_rsi_range_witness :
    calculate_rsi (fun k => (k : ℚ)) 1 ≠ .nan ∧
    ∃ q : ℚ, calculate_rsi (fun k => (k : ℚ)) 1 = .val q ∧
      0 ≤ q ∧ q ≤ 100 :=
  ⟨by rw [rsi_cast_one]; simp,
   calculate_rsi_range (fun k => (k : ℚ)) 1 (by rw [rsi_cast_one]; simp)⟩

theorem fdiv_val_val_defined (a b : ℚ) (h : ¬(a = 0 ∧ b = 0)) :
    ((FVal.val a).fdiv (.val b)).defined = true := by
  show (if b = 0 then if a = 0 then FVal.nan else if 0 < a then FVal.inf
    else FVal.ninf else FVal.val (a / b)).defined = true
  by_cases hb : b = 0
  · rw [if_pos hb, if_neg (fun ha => h ⟨ha, hb⟩)]
    by_cases hpos : 0 < a
    · rw [if_pos hpos]
      rfl
    · rw [if_neg hpos]
      rfl
  · rw [if_neg hb]
    rfl

/-- `Daily_Return` is non-NaN at every row past the first whose close moved:
a zero previous close then yields an infinity, which `dropna` keeps. -/
theorem daily_return_defined (c : ℕ → ℚ) (i : ℕ) (hi : i ≠ 0)
    (hne : c (i - 1) ≠ c i) : (daily_return c i).defined = true := by
  unfold daily_return
  rw [if_neg hi]
  apply fdiv_val_val_defined
  rintro ⟨h1, _⟩
  exact hne (sub_eq_zero.mp h1).symm

/-- If the close moved at row `i`, the trailing gain and loss averages are
not both zero. -/
theorem rsi_not_both_zero (c : ℕ → ℚ) (i : ℕ) (hi : i ≠ 0)
    (hne : c (i - 1) ≠ c i) : ¬(lAvg c i = 0 ∧ gAvg c i = 0) := by
  rintro ⟨hl, hg⟩
  have hd : c i - c (i - 1) ≠ 0 := fun h => hne (sub_eq_zero.mp h).symm
  have hmem : i ∈ winIdx 14 i := (winIdx_mem 14 i i).mpr ⟨by omega, le_refl i⟩
  rcases lt_or_gt_of_ne hd with hlt | hgt
  · have hlq : 0 < lq c i := by
      unfold lq
      rw [if_neg hi, max_eq_left (by linarith)]
      linarith
    have hsum := sum_map_pos i hmem hlq (fun j _ => lq_nonneg c j)
    have hlpos : 0 < lAvg c i := by
      unfold lAvg
      exact div_pos hsum (by exact_mod_cast winIdx_length_pos 14 i (by omega))
    exact absurd hl (ne_of_gt hlpos)
  · have hgq : 0 < gq c i := by
      unfold gq
      rw [if_neg hi, max_eq_left (by linarith)]
      linarith
    have hsum := sum_map_pos i hmem hgq (fun j _ => gq_nonneg c j)
    have hgpos : 0 < gAvg c i := by
      unfold gAvg
      exact div_pos hsum (by exact_mod_cast winIdx_length_pos 14 i (by omega))
    exact absurd hg (ne_of_gt hgpos)

/-- The RSI is non-NaN at every row past the first whose close moved. -/
theorem calculate_rsi_defined (c : ℕ → ℚ) (i : ℕ) (hi : i ≠ 0)
    (hne : c (i - 1) ≠ c i) : (calculate_rsi c i).defined = true := by
  rw [calculate_rsi_eq]
  by_cases h1 : lAvg c i = 0
  · rw [if_pos h1,
      if_neg (fun h2 => rsi_not_both_zero c i hi hne ⟨h1, h2⟩)]
    rfl
  · rw [if_neg h1]
    rfl

/-- C2 (amended): `calculate_rsi` never crashes — it is a total function of
the close series — and at a row whose 14-period average loss is zero its
value is NaN exactly when the average gain is also zero (a flat trailing
window, `rs = 0/0`); when the average gain is positive the division yields
+infinity and the RSI is exactly 100, not NaN.  A NaN RSI is moreover not
propagated into the feature table: `create_features` drops any such row in
its final `dropna`. -/
theorem calculate_rsi_zero_loss (c : ℕ → ℚ) (i n : ℕ)
    (h : avg_loss c i = .val 0) :
    (calculate_rsi c i = .nan ↔ avg_gain c i = .val 0) ∧
    (avg_gain c i ≠ .val 0 → calculate_rsi c i = .val 100) ∧
    (calculate_rsi c i = .nan → keptRow n c i = false) := by
  rw [avg_loss_eq] at h
  have hl0 : lAvg c i = 0 := by
    injection h
  have hgain : avg_gain c i = .val 0 ↔ gAvg c i = 0 := by
    rw [avg_gain_eq]
    constructor
    · intro hg
      injection hg
    · intro hg
      rw [hg]
  refine ⟨?_, ?_, ?_⟩
  · rw [calculate_rsi_eq, if_pos hl0, hgain]
    by_cases h2 : gAvg c i = 0
    · simp [h2]
    · simp [h2]
  · intro hg
    rw [calculate_rsi_eq, if_pos hl0, if_neg (fun h2 => hg (hgain.mpr h2))]
  · intro hnan
    have hdef : (calculate_rsi c i).defined = false := by
      rw [hnan]
      rfl
    simp [keptRow, hdef]

/-- Counterexample to C2 as stated: on the close series 0,1,2,... the
14-period average loss at row 1 is zero, yet the RSI there is 100 — a
defined value, not NaN (the claim asserts it would be NaN). -/
theorem calculate_rsi_zero_loss_cex :
    avg_loss (fun k => (k : ℚ)) 1 = .val 0 ∧
    calculate_rsi (fun k => (k : ℚ)) 1 = .val 100 ∧
    FVal.val 100 ≠ FVal.nan :=
  ⟨avg_loss_cast_one, rsi_cast_one, by simp⟩

/-- On a constant close series the loss average at row 3 is zero. -/
theorem avg_loss_const_three : avg_loss (fun _ => (5 : ℚ)) 3 = .val 0 := by
  rw [avg_loss_eq]
  have hz : ((winIdx 14 3).map (lq (fun _ => (5 : ℚ)))).sum = 0 := by
    apply sum_map_eq_zero
    intro k _
    unfold lq
    split
    · rfl
    · norm_num
  have h0 : lAvg (fun _ => (5 : ℚ)) 3 = 0 := by
    unfold lAvg
    rw [hz, zero_div]
  rw [h0]

/-- Witness for the amended C2 at the constant close series 5,5,5,...,
row 3, frame length 300. -/
theorem calculate_rsi_zero_loss_witness :
    avg_loss (fun _ => (5 : ℚ)) 3 = .val 0 ∧
    ((calculate_rsi (fun _ => (5 : ℚ)) 3 = .nan ↔
        avg_gain (fun _ => (5 : ℚ)) 3 = .val 0) ∧
      (avg_gain (fun _ => (5 : ℚ)) 3 ≠ .val 0 →
        calculate_rsi (fun _ => (5 : ℚ)) 3 = .val 100) ∧
      (calculate_rsi (fun _ => (5 : ℚ)) 3 = .nan →
        keptRow 300 (fun _ => (5 : ℚ)) 3 = false)) :=
  ⟨avg_loss_const_three,
   calculate_rsi_zero_loss (fun _ => (5 : ℚ)) 3 300 avg_loss_const_three⟩

theorem defined_val (q : ℚ) : (FVal.val q).defined = true := rfl

/-- With 199 trailing rows available and a next row present, and consecutive
closes pairwise distinct, a row survives the `dropna`. -/
theorem keptRow_true (n : ℕ) (c : ℕ → ℚ)
    (hd : ∀ k, k + 1 < n → c k ≠ c (k + 1)) (i : ℕ) (h1 : 199 ≤ i)
    (h2 : i + 1 < n) : keptRow n c i = true := by
  have e50 : (sma c 50 i).defined = true := by
    unfold sma
    rw [if_pos (by omega)]
    rfl
  have e200 : (sma c 200 i).defined = true := by
    unfold sma
    rw [if_pos (by omega)]
    rfl
  have e10 : (sma c 10 i).defined = true := by
    unfold sma
    rw [if_pos (by omega)]
    rfl
  have estd : (rollStdTen c i).defined = true := by
    unfold rollStdTen
    rw [if_pos (by omega)]
    rfl
  have efc : (futureClose n c i).defined = true := by
    unfold futureClose
    rw [if_pos h2]
    rfl
  have hne : ∀ j, 1 ≤ j → j < n → c (j - 1) ≠ c j := by
    intro j hj1 hjn
    have h := hd (j - 1) (by omega)
    rwa [show j - 1 + 1 = j by omega] at h
  have ersi : (calculate_rsi c i).defined = true :=
    calculate_rsi_defined c i (by omega) (hne i (by omega) (by omega))
  have edr : (daily_return c i).defined = true :=
    daily_return_defined c i (by omega) (hne i (by omega) (by omega))
  have elag : ∀ k, 1 ≤ k → k ≤ 5 → (closeLag c k i).defined = true := by
    intro k hk1 hk5
    unfold closeLag
    rw [if_pos (by omega)]
    rfl
  have edlag : ∀ k, 1 ≤ k → k ≤ 5 → (drLag c k i).defined = true := by
    intro k hk1 hk5
    unfold drLag
    rw [if_pos (by omega)]
    exact daily_return_defined c (i - k) (by omega)
      (hne (i - k) (by omega) (by omega))
  simp [keptRow, e50, e200, e10, estd, efc, ersi, edr,
    elag 1 (by omega) (by omega), elag 2 (by omega) (by omega),
    elag 3 (by omega) (by omega), elag 4 (by omega) (by omega),
    elag 5 (by omega) (by omega),
    edlag 1 (by omega) (by omega), edlag 2 (by omega) (by omega),
    edlag 3 (by omega) (by omega), edlag 4 (by omega) (by omega),
    edlag 5 (by omega) (by omega), emaF, macdF, defined_val]

/-- A row with fewer than 199 predecessors is dropped (its SMA_200 is
NaN). -/
theorem keptRow_false_low (n : ℕ) (c : ℕ → ℚ) (i : ℕ) (h1 : i < 199) :
    keptRow n c i = false := by
  have e200 : (sma c 200 i).defined = false := by
    unfold sma
    rw [if_neg (by omega)]
    rfl
  simp [keptRow, e200]

/-- The last row of the frame is dropped (its Future_Close is NaN). -/
theorem keptRow_false_last (n : ℕ) (c : ℕ → ℚ) (i : ℕ) (h2 : ¬i + 1 < n) :
    keptRow n c i = false := by
  have efc : (futureClose n c i).defined = false := by
    unfold futureClose
    rw [if_neg h2]
    rfl
  simp [keptRow, efc]

/-- Counting an index band inside `List.range`. -/
theorem length_filter_range_band (a b n : ℕ) :
    ((List.range n).filter
      (fun i => decide (a ≤ i) && decide (i + 1 < b))).length
      = min (b - 1) n - min a n := by
  induction n with
  | zero => simp
  | succ m ih =>
      rw [List.range_succ, List.filter_append, List.length_append, ih]
      by_cases h1 : a ≤ m
      · by_cases h2 : m + 1 < b
        · simp [h1, h2]
          omega
        · simp [h1, h2]
          omega
      · simp [h1]
        omega

/-- C1 (amended): for a price series whose consecutive closes are pairwise
distinct, the feature table of `create_features` is empty when the input
has at most 200 rows (and the emptiness needs no distinctness at all), and
has exactly (row count - 200) rows when the input is longer: the 199
leading rows lacking the 200-row trailing history of SMA_200 and the final
row lacking a next-day target are dropped. -/
theorem create_features_row_count (n : ℕ) (c : ℕ → ℚ) :
    (n ≤ 200 → (create_features n c).length = 0) ∧
    ((∀ k, k + 1 < n → c k ≠ c (k + 1)) → 200 < n →
      (create_features n c).length = n - 200) := by
  constructor
  · intro hn
    unfold create_features
    rw [List.length_eq_zero]
    apply List.filter_eq_nil_iff.mpr
    intro i hi
    have hin : i < n := List.mem_range.mp hi
    by_cases h1 : i < 199
    · simp [keptRow_false_low n c i h1]
    · simp [keptRow_false_last n c i (by omega)]
  · intro hd hn
    unfold create_features
    have hcongr : ∀ i ∈ List.range n,
        keptRow n c i = (decide (199 ≤ i) && decide (i + 1 < n)) := by
      intro i hi
      have hin : i < n := List.mem_range.mp hi
      by_cases h1 : 199 ≤ i
      · by_cases h2 : i + 1 < n
        · rw [keptRow_true n c hd i h1 h2]
          simp [h1, h2]
        · rw [keptRow_false_last n c i h2]
          simp [h2]
      · rw [keptRow_false_low n c i (by omega)]
        simp [h1]
    rw [List.filter_congr hcongr, length_filter_range_band 199 n n]
    omega

/-- Counterexample to C1 as stated: on the 201-row strictly increasing close
series 0,1,...,200 the feature table has 1 row (row 199), not
201 - 200 - 1 = 0 rows as the claim predicts. -/
theorem create_features_row_count_cex :
    (create_features 201 (fun k => (k : ℚ))).length ≠ 201 - 200 - 1 := by
  have hd : ∀ k : ℕ, k + 1 < 201 → ((k : ℚ)) ≠ (((k + 1 : ℕ) : ℚ)) := by
    intro k hk
    exact ne_of_lt (castSeries_mono 201 k hk)
  have hcongr : ∀ i ∈ List.range 201,
      keptRow 201 (fun k => (k : ℚ)) i =
        (decide (199 ≤ i) && decide (i + 1 < 201)) := by
    intro i hi
    have hin : i < 201 := List.mem_range.mp hi
    by_cases h1 : 199 ≤ i
    · by_cases h2 : i + 1 < 201
      · rw [keptRow_true 201 _ hd i h1 h2]
        simp [h1, h2]
      · rw [keptRow_false_last 201 _ i h2]
        simp [h2]
    · rw [keptRow_false_low 201 _ i (by omega)]
      simp [h1]
  unfold create_features
  rw [List.filter_congr hcongr, length_filter_range_band 199 201 201]
  omega

/-- C8: at every row of the feature table, the target column `Future_Close`
is the next day's close of the input series (`Close.shift(-1)`), and such a
next row exists. -/
theorem create_features_target (n : ℕ) (c : ℕ → ℚ) (i : ℕ)
    (h : i ∈ create_features n c) :
    i + 1 < n ∧ futureClose n c i = .val (c (i + 1)) := by
  unfold create_features at h
  have hkept : keptRow n c i = true := (List.mem_filter.mp h).2
  by_cases h2 : i + 1 < n
  · refine ⟨h2, ?_⟩
    unfold futureClose
    rw [if_pos h2]
  · rw [keptRow_false_last n c i h2] at hkept
    exact absurd hkept (by simp)

/-- Witness for C8: on the 201-row series 0,1,...,200, row 199 is in the
feature table and its Future_Close is the close of row 200. -/
theorem create_features_target_witness :
    199 + 1 < 201 ∧
    futureClose 201 (fun k => (k : ℚ)) 199 = .val (((199 + 1 : ℕ) : ℚ)) :=
  create_features_target 201 (fun k => (k : ℚ)) 199
    (List.mem_filter.mpr
      ⟨by decide,
       keptRow_true 201 (fun k => (k : ℚ))
         (fun k hk => ne_of_lt (castSeries_mono 201 k hk)) 199
         (by omega) (by omega)⟩)

/-- C7: on a successful run with a positive last close, the forecast is
reported "up" and green exactly when the predicted price strictly exceeds
the last close, and "down" and red exactly otherwise (equality included);
the printed figure is the absolute value of the percentage change
`(predicted - last) / last * 100`, whose sign agrees with the directional
call. -/
theorem report_direction (f l : ℚ) (hl : 0 < l) :
    (((report f l).1 = "up" ∧ (report f l).2.1 = GREEN) ↔ l < f) ∧
    (((report f l).1 = "down" ∧ (report f l).2.1 = RED) ↔ f ≤ l) ∧
    (report f l).2.2 = |(f - l) / l * 100| ∧
    (0 < (f - l) / l * 100 ↔ l < f) := by
  have hmul : (f - l) / l * 100 = (f - l) * (100 / l) := by
    ring
  have h100 : 0 < 100 / l := by positivity
  have hsign : 0 < (f - l) / l * 100 ↔ l < f := by
    rw [hmul]
    constructor
    · intro hp
      by_contra hc
      push_neg at hc
      have hfl : f - l ≤ 0 := by linarith
      nlinarith
    · intro hp
      exact mul_pos (by linarith) h100
  have hud : ("up" : String) ≠ "down" := by decide
  by_cases h : l < f
  · unfold report
    rw [if_pos h]
    exact ⟨by simp [h], by simp [hud, not_le.mpr h], rfl, hsign⟩
  · unfold report
    rw [if_neg h]
    exact ⟨by simp [h, hud.symm], by simp [le_of_not_lt h], rfl, hsign⟩

/-- Witness for C7 at predicted 2, last close 1: direction "up", green,
printed change 100. -/
theorem report_direction_witness :
    (((report 2 1).1 = "up" ∧ (report 2 1).2.1 = GREEN) ↔ (1 : ℚ) < 2) ∧
    (((report 2 1).1 = "down" ∧ (report 2 1).2.1 = RED) ↔ (2 : ℚ) ≤ 1) ∧
    (report 2 1).2.2 = |((2 : ℚ) - 1) / 1 * 100| ∧
    (0 < ((2 : ℚ) - 1) / 1 * 100 ↔ (1 : ℚ) < 2) :=
  report_direction 2 1 (by norm_num)

/-- C4: each pipeline stage is all-or-nothing.  A failing `preprocess_data`
or `create_features` returns an absent result and leaves the input frame
exactly as it was (the only raising point of either stage precedes its
first in-place mutation); a failing `train_model` returns the fully absent
pair `(None, None)`; a failing `predict_future_prices` (schema mismatch)
returns an absent result and touches no state. -/
theorem stage_all_or_nothing :
    (∀ f : PyFrame, (preprocess_data f).1 = none → (preprocess_data f).2 = f) ∧
    (∀ f : PyFrame,
      (create_features_st f).1 = none → (create_features_st f).2 = f) ∧
    (∀ (M : Type) (fitNN : List (Fin 8 → ℝ) → List ℚ → M) (perm : List ℕ)
      (X : List (Fin 8 → ℚ)) (y : List ℚ),
      (train_model fitNN perm X y).1 = none →
        train_model fitNN perm X y = (none, none)) ∧
    (∀ (M : Type) (fw : M → (Fin 8 → ℝ) → ℝ) (m : M) (sc : StdScaler)
      (row : List ℚ), row.length ≠ 8 →
        predict_future_prices fw m sc row = none) := by
  refine ⟨?_, ?_, ?_, ?_⟩
  · intro f hf
    cases hix : f.index? with
    | none => simp [preprocess_data, hix]
    | some ix => simp [preprocess_data, hix] at hf
  · intro f hf
    cases hcl : f.close? with
    | none => simp [create_features_st, hcl]
    | some c => simp [create_features_st, hcl] at hf
  · intro M fitNN perm X y h
    unfold train_model at h ⊢
    by_cases hlen : X.length < 2
    · rw [if_pos hlen]
    · rw [if_neg hlen] at h
      simp at h
  · intro M fw m sc row hrow
    unfold predict_future_prices
    rw [dif_neg hrow]

/-- Witness for C4: the malformed frame is returned untouched by both frame
stages, an undersized training set yields the absent pair, and an
empty (0-feature) prediction row yields an absent forecast. -/
theorem stage_all_or_nothing_witness :
    (preprocess_data badFrame).2 = badFrame ∧
    (create_features_st badFrame).2 = badFrame ∧
    train_model (fun (_ : List (Fin 8 → ℝ)) (_ : List ℚ) => ()) []
      ([] : List (Fin 8 → ℚ)) ([] : List ℚ) = (none, none) ∧
    predict_future_prices (fun (_ : Unit) (_ : Fin 8 → ℝ) => (0 : ℝ)) ()
      (fitScaler []) ([] : List ℚ) = none :=
  ⟨stage_all_or_nothing.1 badFrame rfl,
   stage_all_or_nothing.2.1 badFrame rfl,
   stage_all_or_nothing.2.2.1 Unit (fun _ _ => ()) [] [] [] rfl,
   stage_all_or_nothing.2.2.2 Unit (fun _ _ => (0 : ℝ)) () (fitScaler []) []
     (by decide)⟩

/-- C5: `train_model` with fewer than 2 samples produces no model — it
returns the pair `(None, None)` — and in every case it returns the model
and the fitted scaler together or not at all. -/
theorem train_model_pair {M : Type}
    (fitNN : List (Fin 8 → ℝ) → List ℚ → M) (perm : List ℕ)
    (X : List (Fin 8 → ℚ)) (y : List ℚ) :
    (X.length < 2 → train_model fitNN perm X y = (none, none)) ∧
    ((train_model fitNN perm X y).1 = none ↔
      (train_model fitNN perm X y).2 = none) := by
  unfold train_model
  by_cases h : X.length < 2
  · rw [if_pos h]
    simp
  · rw [if_neg h]
    simp [h]

/-- Witness for C5 at a 1-sample feature table. -/
theorem train_model_pair_witness :
    train_model (fun (_ : List (Fin 8 → ℝ)) (_ : List ℚ) => ()) []
      [fun _ => (0 : ℚ)] ([0] : List ℚ) = (none, none) ∧
    ((train_model (fun (_ : List (Fin 8 → ℝ)) (_ : List ℚ) => ()) []
        [fun _ => (0 : ℚ)] ([0] : List ℚ)).1 = none ↔
      (train_model (fun (_ : List (Fin 8 → ℝ)) (_ : List ℚ) => ()) []
        [fun _ => (0 : ℚ)] ([0] : List ℚ)).2 = none) :=
  ⟨(train_model_pair (fun _ _ => ()) [] [fun _ => (0 : ℚ)] [0]).1
      (by simp),
   (train_model_pair (fun _ _ => ()) [] [fun _ => (0 : ℚ)] [0]).2⟩

theorem list_sum_cast (l : List ℚ) :
    ((l.sum : ℚ) : ℝ) = (l.map (fun q : ℚ => (q : ℝ))).sum := by
  induction l with
  | nil => simp
  | cons x xs ih =>
      simp only [List.sum_cons, List.map_cons]
      rw [Rat.cast_add, ih]

theorem list_sum_map_sub (l : List ℚ) (a : ℝ) :
    (l.map (fun q : ℚ => ((q : ℝ) - a))).sum =
      (l.map (fun q : ℚ => (q : ℝ))).sum - l.length * a := by
  induction l with
  | nil => simp
  | cons x xs ih =>
      simp only [List.map_cons, List.sum_cons, List.length_cons, ih]
      push_cast
      ring

theorem list_sum_map_div (l : List ℚ) (g : ℚ → ℝ) (s : ℝ) :
    (l.map (fun q : ℚ => g q / s)).sum = (l.map g).sum / s := by
  induction l with
  | nil => simp
  | cons x xs ih =>
      simp only [List.map_cons, List.sum_cons, ih]
      ring

theorem list_sum_cast_sq (l : List ℚ) (m : ℚ) :
    (((l.map (fun x : ℚ => (x - m) ^ 2)).sum : ℚ) : ℝ) =
      (l.map (fun q : ℚ => ((q : ℝ) - (m : ℝ)) ^ 2)).sum := by
  induction l with
  | nil => simp
  | cons x xs ih =>
      simp only [List.map_cons, List.sum_cons]
      rw [Rat.cast_add, ih]
      congr 1
      push_cast
      ring

theorem popVar_nonneg (l : List ℚ) : 0 ≤ popVar l := by
  unfold popVar
  apply div_nonneg
  · apply List.sum_nonneg
    intro x hx
    obtain ⟨q, _, rfl⟩ := List.mem_map.mp hx
    positivity
  · positivity

/-- The mean of a standardised column is zero. -/
theorem meanR_standardised (l : List ℚ) (s : ℝ) (hne : l ≠ []) :
    meanR (l.map (fun q : ℚ =>
      ((q : ℝ) - ((meanQ l : ℚ) : ℝ)) / s)) = 0 := by
  have hn : (l.length : ℝ) ≠ 0 := by
    simpa using hne
  unfold meanR
  rw [list_sum_map_div l (fun q : ℚ => ((q : ℝ) - ((meanQ l : ℚ) : ℝ))) s,
    list_sum_map_sub]
  have hsum : (l.map (fun q : ℚ => (q : ℝ))).sum -
      l.length * ((meanQ l : ℚ) : ℝ) = 0 := by
    unfold meanQ
    rw [Rat.cast_div, list_sum_cast, Rat.cast_natCast,
      mul_div_cancel₀ _ hn, sub_self]
  rw [hsum, zero_div, zero_div]

/-- The population variance of a column standardised with the square root
of its own (nonzero) variance is one. -/
theorem popVarR_standardised (l : List ℚ) (hv : popVar l ≠ 0) :
    popVarR (l.map (fun q : ℚ =>
      ((q : ℝ) - ((meanQ l : ℚ) : ℝ)) / Real.sqrt ((popVar l : ℚ) : ℝ))) =
      1 := by
  have hne : l ≠ [] := by
    intro he
    apply hv
    rw [he]
    simp [popVar]
  have hn : (l.length : ℝ) ≠ 0 := by
    simpa using hne
  have hvnn : (0 : ℝ) ≤ ((popVar l : ℚ) : ℝ) := by
    exact_mod_cast popVar_nonneg l
  have hvne : ((popVar l : ℚ) : ℝ) ≠ 0 := by
    exact_mod_cast hv
  have hsq : Real.sqrt ((popVar l : ℚ) : ℝ) ^ 2 = ((popVar l : ℚ) : ℝ) :=
    Real.sq_sqrt hvnn
  have hmean := meanR_standardised l (Real.sqrt ((popVar l : ℚ) : ℝ)) hne
  unfold popVarR
  rw [hmean]
  have hmap : ((l.map (fun q : ℚ =>
      ((q : ℝ) - ((meanQ l : ℚ) : ℝ)) / Real.sqrt ((popVar l : ℚ) : ℝ))).map
        (fun x => (x - 0) ^ 2)) =
      l.map (fun q : ℚ => (((q : ℝ) - ((meanQ l : ℚ) : ℝ)) ^ 2) /
        ((popVar l : ℚ) : ℝ)) := by
    rw [List.map_map]
    apply List.map_congr_left
    intro q _
    show (((q : ℝ) - ((meanQ l : ℚ) : ℝ)) / Real.sqrt ((popVar l : ℚ) : ℝ)
      - 0) ^ 2 = _
    rw [sub_zero, div_pow, hsq]
  rw [hmap,
    list_sum_map_div l
      (fun q : ℚ => ((q : ℝ) - ((meanQ l : ℚ) : ℝ)) ^ 2)
      ((popVar l : ℚ) : ℝ),
    List.length_map]
  have hvar : (l.map
      (fun q : ℚ => ((q : ℝ) - ((meanQ l : ℚ) : ℝ)) ^ 2)).sum =
      ((popVar l : ℚ) : ℝ) * l.length := by
    rw [← list_sum_cast_sq l (meanQ l)]
    unfold popVar
    rw [Rat.cast_div, Rat.cast_natCast, div_mul_cancel₀ _ hn]
  rw [hvar]
  field_simp

/-- The scaled training column as the standardisation of the raw column. -/
theorem scaledTrainCol_eq (perm : List ℕ) (X : List (Fin 8 → ℚ)) (j : Fin 8)
    (hv : popVar (colVals (trainSplit perm X) j) ≠ 0) :
    scaledTrainCol perm X j =
      (colVals (trainSplit perm X) j).map (fun q : ℚ =>
        ((q : ℝ) - ((meanQ (colVals (trainSplit perm X) j) : ℚ) : ℝ)) /
          Real.sqrt ((popVar (colVals (trainSplit perm X) j) : ℚ) : ℝ)) := by
  unfold scaledTrainCol colVals transformRow fitScaler
  rw [List.map_map]
  apply List.map_congr_left
  intro r _
  show ((r j : ℝ) - _) / Real.sqrt (((if popVar (List.map
      (fun r => r j) (trainSplit perm X)) = 0 then 1
    else popVar (List.map (fun r => r j) (trainSplit perm X)) : ℚ)) : ℝ) = _
  rw [if_neg (by simpa [colVals] using hv)]
  rfl

/-- C9 (amended): on every training run that succeeds, the returned scaler
is the one fitted on the training split, and the test split is transformed
with exactly those training-split statistics; every feature column that is
not constant on the training split is standardised to mean 0 and variance 1
(hence standard deviation 1).  A column constant on the training split —
reachable, e.g. any 2-sample run trains on a single row — is scaled with
unit scale instead and keeps variance 0. -/
theorem scaler_invariant {M : Type}
    (fitNN : List (Fin 8 → ℝ) → List ℚ → M) (perm : List ℕ)
    (X : List (Fin 8 → ℚ)) (y : List ℚ) (j : Fin 8) (hlen : 2 ≤ X.length)
    (hv : popVar (colVals (trainSplit perm X) j) ≠ 0) :
    (train_model fitNN perm X y).2 = some (fitScaler (trainSplit perm X)) ∧
    meanR (scaledTrainCol perm X j) = 0 ∧
    popVarR (scaledTrainCol perm X j) = 1 ∧
    testScaled perm X =
      (testSplit perm X).map (transformRow (fitScaler (trainSplit perm X)))
    := by
  refine ⟨?_, ?_, ?_, rfl⟩
  · unfold train_model
    rw [if_neg (by omega)]
  · rw [scaledTrainCol_eq perm X j hv]
    apply meanR_standardised
    intro he
    apply hv
    rw [he]
    simp [popVar]
  · rw [scaledTrainCol_eq perm X j hv]
    exact popVarR_standardised _ hv

/-- Counterexample to C9 as stated: the 2-sample feature table
`[(1,...,1), (2,...,2)]` trains successfully (both model and scaler are
returned), but its training split is the single row `(2,...,2)`, so every
scaled feature column is constant: the scaled column 0 has variance 0 — a
standard deviation of 0, not (approximately) 1. -/
theorem scaler_invariant_cex :
    (train_model (fun (_ : List (Fin 8 → ℝ)) (_ : List ℚ) => ()) [0, 1]
        [fun _ => (1 : ℚ), fun _ => (2 : ℚ)] [1, 2]).1 = some () ∧
    (train_model (fun (_ : List (Fin 8 → ℝ)) (_ : List ℚ) => ()) [0, 1]
        [fun _ => (1 : ℚ), fun _ => (2 : ℚ)] [1, 2]).2 =
      some (fitScaler
        (trainSplit [0, 1] [fun _ => (1 : ℚ), fun _ => (2 : ℚ)])) ∧
    popVarR (scaledTrainCol [0, 1]
      [fun _ => (1 : ℚ), fun _ => (2 : ℚ)] 0) = 0 ∧
    (0 : ℝ) ≠ 1 := by
  refine ⟨?_, ?_, ?_, by norm_num⟩
  · unfold train_model
    rw [if_neg (by simp)]
  · unfold train_model
    rw [if_neg (by simp)]
  · have htr : trainSplit [0, 1]
        ([fun _ => (1 : ℚ), fun _ => (2 : ℚ)] : List (Fin 8 → ℚ)) =
        [fun _ => (2 : ℚ)] := rfl
    unfold scaledTrainCol
    rw [htr]
    simp [transformRow, fitScaler, colVals, meanQ, popVar, popVarR, meanR]

/-- Witness for the amended C9: a 3-sample run whose training split is the
two rows `(2,...,2)`, `(4,...,4)`; column 0 of the training split has
variance 1 ≠ 0 and is standardised to mean 0, variance 1. -/
theorem scaler_invariant_witness :
    (train_model (fun (_ : List (Fin 8 → ℝ)) (_ : List ℚ) => ()) [0, 1, 2]
        [fun _ => (0 : ℚ), fun _ => (2 : ℚ), fun _ => (4 : ℚ)]
        [0, 2, 4]).2 =
      some (fitScaler (trainSplit [0, 1, 2]
        [fun _ => (0 : ℚ), fun _ => (2 : ℚ), fun _ => (4 : ℚ)])) ∧
    meanR (scaledTrainCol [0, 1, 2]
      [fun _ => (0 : ℚ), fun _ => (2 : ℚ), fun _ => (4 : ℚ)] 0) = 0 ∧
    popVarR (scaledTrainCol [0, 1, 2]
      [fun _ => (0 : ℚ), fun _ => (2 : ℚ), fun _ => (4 : ℚ)] 0) = 1 ∧
    testScaled [0, 1, 2]
        [fun _ => (0 : ℚ), fun _ => (2 : ℚ), fun _ => (4 : ℚ)] =
      (testSplit [0, 1, 2]
        [fun _ => (0 : ℚ), fun _ => (2 : ℚ), fun _ => (4 : ℚ)]).map
        (transformRow (fitScaler (trainSplit [0, 1, 2]
          [fun _ => (0 : ℚ), fun _ => (2 : ℚ), fun _ => (4 : ℚ)]))) :=
  scaler_invariant (fun _ _ => ()) [0, 1, 2]
    [fun _ => (0 : ℚ), fun _ => (2 : ℚ), fun _ => (4 : ℚ)] [0, 2, 4] 0
    (by simp)
    (by
      have htr : trainSplit [0, 1, 2]
          ([fun _ => (0 : ℚ), fun _ => (2 : ℚ), fun _ => (4 : ℚ)] :
            List (Fin 8 → ℚ)) =
          [fun _ => (2 : ℚ), fun _ => (4 : ℚ)] := rfl
      rw [htr]
      simp [colVals, popVar, meanQ]
      norm_num)

theorem daysInMonth_pos (y m : ℕ) : 1 ≤ daysInMonth y m := by
  unfold daysInMonth
  split_ifs <;> omega

theorem isLeap_iff (y : ℕ) :
    isLeap y = true ↔ (y % 4 = 0 ∧ (y % 100 ≠ 0 ∨ y % 400 = 0)) := by
  simp [isLeap]

theorem nextDay_valid (x : SDate) (hv : validDate x) :
    validDate (nextDay x) := by
  obtain ⟨y, m, d⟩ := x
  have hv' : 1 ≤ y ∧ 1 ≤ m ∧ m ≤ 12 ∧ 1 ≤ d ∧ d ≤ daysInMonth y m := hv
  obtain ⟨hy, hm1, hm2, hd1, hd2⟩ := hv'
  unfold nextDay
  dsimp only
  by_cases h1 : d < daysInMonth y m
  · rw [if_pos h1]
    show 1 ≤ y ∧ 1 ≤ m ∧ m ≤ 12 ∧ 1 ≤ d + 1 ∧ d + 1 ≤ daysInMonth y m
    exact ⟨hy, hm1, hm2, by omega, by omega⟩
  · rw [if_neg h1]
    by_cases h2 : m < 12
    · rw [if_pos h2]
      show 1 ≤ y ∧ 1 ≤ m + 1 ∧ m + 1 ≤ 12 ∧ 1 ≤ 1 ∧
        1 ≤ daysInMonth y (m + 1)
      exact ⟨hy, by omega, by omega, le_refl 1, daysInMonth_pos y (m + 1)⟩
    · rw [if_neg h2]
      show 1 ≤ y + 1 ∧ 1 ≤ 1 ∧ 1 ≤ 12 ∧ 1 ≤ 1 ∧ 1 ≤ daysInMonth (y + 1) 1
      exact ⟨by omega, le_refl 1, by omega, le_refl 1,
        daysInMonth_pos (y + 1) 1⟩

theorem daysBeforeMonth_succ (y m : ℕ) (hm1 : 1 ≤ m) (hm2 : m < 12) :
    daysBeforeMonth y (m + 1) = daysBeforeMonth y m + daysInMonth y m := by
  interval_cases m <;>
    cases hL : isLeap y <;>
      simp [daysBeforeMonth, daysInMonth, hL]

theorem toOrdinal_nextDay (x : SDate) (hv : validDate x) :
    toOrdinal (nextDay x) = toOrdinal x + 1 := by
  obtain ⟨y, m, d⟩ := x
  have hv' : 1 ≤ y ∧ 1 ≤ m ∧ m ≤ 12 ∧ 1 ≤ d ∧ d ≤ daysInMonth y m := hv
  obtain ⟨hy, hm1, hm2, hd1, hd2⟩ := hv'
  unfold nextDay
  dsimp only
  by_cases h1 : d < daysInMonth y m
  · rw [if_pos h1]
    show 365 * (y - 1) + leapCount (y - 1) + daysBeforeMonth y m + (d + 1) =
      365 * (y - 1) + leapCount (y - 1) + daysBeforeMonth y m + d + 1
    omega
  · rw [if_neg h1]
    have hd : d = daysInMonth y m := by omega
    by_cases h2 : m < 12
    · rw [if_pos h2]
      have hstep := daysBeforeMonth_succ y m hm1 h2
      show 365 * (y - 1) + leapCount (y - 1) + daysBeforeMonth y (m + 1) + 1
        = 365 * (y - 1) + leapCount (y - 1) + daysBeforeMonth y m + d + 1
      omega
    · rw [if_neg h2]
      have hm : m = 12 := by omega
      subst hm
      have hdim : daysInMonth y 12 = 31 := by
        simp [daysInMonth]
      have hd31 : d = 31 := by omega
      subst hd31
      show 365 * (y + 1 - 1) + leapCount (y + 1 - 1) +
          daysBeforeMonth (y + 1) 1 + 1 =
        365 * (y - 1) + leapCount (y - 1) + daysBeforeMonth y 12 + 31 + 1
      have hb1 : daysBeforeMonth (y + 1) 1 = 0 := by
        simp [daysBeforeMonth]
      have hb12 : daysBeforeMonth y 12 =
          334 + (if isLeap y then 1 else 0) := by
        simp [daysBeforeMonth]
      rw [hb1, hb12]
      unfold leapCount
      by_cases hL : y % 4 = 0 ∧ (y % 100 ≠ 0 ∨ y % 400 = 0)
      · rw [if_pos ((isLeap_iff y).mpr hL)]
        omega
      · rw [if_neg (fun hb => hL ((isLeap_iff y).mp hb))]
        omega

/-- Iterating the calendar successor `nd` times preserves validity and
advances the proleptic-Gregorian ordinal by exactly `nd` — i.e. `addDays`
computes "start date plus `nd` calendar days". -/
theorem addDays_ordinal (nd : ℕ) (x : SDate) (hv : validDate x) :
    validDate (addDays nd x) ∧
      toOrdinal (addDays nd x) = toOrdinal x + nd := by
  induction nd with
  | zero =>
      constructor
      · simpa [addDays] using hv
      · simp [addDays]
  | succ k ih =>
      unfold addDays at ih ⊢
      rw [Function.iterate_succ_apply']
      obtain ⟨ihv, iho⟩ := ih
      refine ⟨nextDay_valid _ ihv, ?_⟩
      rw [toOrdinal_nextDay _ ihv, iho]
      omega

theorem parseDate_valid (s : List Char) (x : SDate)
    (h : parseDate s = some x) : validDate x := by
  unfold parseDate at h
  split at h
  · split at h
    · split at h
      · split at h
        · injection h with h
          subst h
          assumption
        · exact Option.noConfusion h
      · exact Option.noConfusion h
    · exact Option.noConfusion h
  · exact Option.noConfusion h

/-- C6: for a start-date input that parses as a valid calendar date and an
end-date input of the form "+N" with N a decimal numeral, the orchestration
loop resolves the end date to the start date plus N calendar days (the
formatted date whose ordinal is exactly N beyond the start date's); in
particular "+5" from "2023-01-01" resolves to "2023-01-06" (see the
witness). -/
theorem resolve_end_date_plus (s t : List Char) (x : SDate) (nd : ℕ)
    (h1 : parseDate s = some x) (h2 : decDigits? t = some nd)
    (h3 : (addDays nd x).year ≤ 9999) :
    resolveEndDate s ('+' :: t) = some (formatDate (addDays nd x)) ∧
    toOrdinal (addDays nd x) = toOrdinal x + nd := by
  have hv := parseDate_valid s x h1
  constructor
  · unfold resolveEndDate
    rw [if_pos (show ('+' :: t).contains '+' = true from rfl)]
    have hdrop : ('+' :: t).drop 1 = t := rfl
    rw [hdrop, h2, h1]
    show (if (addDays nd x).year ≤ 9999
      then some (formatDate (addDays nd x)) else none) = _
    rw [if_pos h3]
  · exact (addDays_ordinal nd x hv).2

/-- Witness for C6: "+5" relative to "2023-01-01" resolves to "2023-01-06",
and the resolved date sits exactly 5 ordinal days after the start. -/
theorem resolve_end_date_plus_witness :
    resolveEndDate ("2023-01-01".toList) ('+' :: "5".toList) =
      some ("2023-01-06".toList) ∧
    toOrdinal (addDays 5 ⟨2023, 1, 1⟩) = toOrdinal ⟨2023, 1, 1⟩ + 5 :=
  ⟨(resolve_end_date_plus "2023-01-01".toList "5".toList ⟨2023, 1, 1⟩ 5
      (by decide) (by decide) (by decide)).1.trans (by decide),
   (resolve_end_date_plus "2023-01-01".toList "5".toList ⟨2023, 1, 1⟩ 5
      (by decide) (by decide) (by decide)).2⟩

/-- Witness for the amended C1: the constant 200-row series yields an empty
feature table with no distinctness assumption at all, and the 201-row
strictly increasing series (201 > 200) yields 201 - 200 = 1 row. -/
theorem create_features_row_count_witness :
    (create_features 200 (fun _ => (7 : ℚ))).length = 0 ∧
    (create_features 201 (fun k => (k : ℚ))).length = 201 - 200 :=
  ⟨(create_features_row_count 200 (fun _ => (7 : ℚ))).1 (le_refl 200),
   (create_features_row_count 201 (fun k => (k : ℚ))).2
     (fun k hk => ne_of_lt (castSeries_mono 201 k hk)) (by omega)⟩
